import Mathlib

/-!
Verification of the geospatial globe engine of this repository: the
spherical projection `latLngToVector3`, the gesture-to-camera updates
`updateRotationFromTouch`, `updateCameraDistanceFromPinch` and
`updateCameraDistanceFromZoom`, the pulse animation of `Sparks`, the
drag/click picker of `Sparks.handlePointerUp`, and the inverse
Cartesian-to-lat/lng mapping of `GlobeSphere.handlePointerUp`.

All numeric code is embedded over the real numbers.  JS `Math.atan2 y x`
is embedded as `Complex.arg (x + y*I)`, which has the same range
`(-pi, pi]` and the same value `0` at the origin.
-/

namespace WorldSpark

/-- Mirrors `THREE.Vector3` as produced by `latLngToVector3`. -/
@[ext]
structure Vector3 where
  x : ℝ
  y : ℝ
  z : ℝ

/-- `latLngToVector3` from `src/components/Globe.tsx`:
converts latitude/longitude coordinates to a 3D sphere position. -/
noncomputable def latLngToVector3 (lat lng radius : ℝ) : Vector3 :=
  let phi := (90 - lat) * (Real.pi / 180)
  let theta := (lng + 180) * (Real.pi / 180)
  ⟨-radius * Real.sin phi * Real.cos theta,
   radius * Real.cos phi,
   radius * Real.sin phi * Real.sin theta⟩

/-- `updateRotationFromTouch` from `src/components/Globe.tsx`:
rotation state update from a touch (or mouse) drag delta. -/
noncomputable def updateRotationFromTouch (currentRotation : ℝ × ℝ × ℝ)
    (touchDelta : ℝ × ℝ) (rotateSpeed : ℝ) : ℝ × ℝ × ℝ :=
  let rotX := currentRotation.1
  let rotY := currentRotation.2.1
  let rotZ := currentRotation.2.2
  let deltaX := touchDelta.1
  let deltaY := touchDelta.2
  let newRotY := rotY + deltaX * rotateSpeed * 0.01
  let newRotX := rotX + deltaY * rotateSpeed * 0.01
  (newRotX, newRotY, rotZ)

/-- `updateCameraDistanceFromPinch` from `src/components/Globe.tsx`:
camera distance update from a pinch gesture, clamped to bounds. -/
noncomputable def updateCameraDistanceFromPinch (currentDistance pinchDelta
    zoomSpeed minDistance maxDistance : ℝ) : ℝ :=
  let newDistance := currentDistance - pinchDelta * zoomSpeed
  max minDistance (min maxDistance newDistance)

/-- `updateCameraDistanceFromZoom` from `src/tests/property/globe.test.ts`:
camera distance update from a scroll zoom delta, clamped to bounds. -/
noncomputable def updateCameraDistanceFromZoom (currentDistance zoomDelta
    zoomSpeed minDistance maxDistance : ℝ) : ℝ :=
  let newDistance := currentDistance + zoomDelta * zoomSpeed
  max minDistance (min maxDistance newDistance)

/-- The `Spark` record from `src/components/Globe.tsx` (`createdAt` is an
opaque timestamp, modelled as a natural number). -/
structure Spark where
  id : String
  text : String
  latitude : ℝ
  longitude : ℝ
  category : String
  locationDisplay : String
  createdAt : ℕ

/-- Euclidean screen-space distance between pointer-down and pointer-up,
as computed in `Sparks.handlePointerUp`. -/
noncomputable def pointerMoveDistance (startX startY upX upY : ℝ) : ℝ :=
  Real.sqrt ((upX - startX) * (upX - startX) + (upY - startY) * (upY - startY))

/-- The selection emitted by `Sparks.handlePointerUp`: movement above the
5-pixel threshold is classified as a drag and suppresses selection;
otherwise a supplied instance id is looked up in the spark array and the
selection is emitted only when the lookup finds a spark. -/
noncomputable def handlePointerUpSelect (startX startY upX upY : ℝ)
    (instanceId : Option ℕ) (sparks : List Spark) : Option Spark :=
  let distance := pointerMoveDistance startX startY upX upY
  if distance > 5 then
    none
  else
    match instanceId with
    | some i => sparks.get? i
    | none => none

/-- The per-instance pulse factor from the `Sparks` frame update:
`1 + sin(time*2 + i*0.1) * 0.3`. -/
noncomputable def pulseScale (time : ℝ) (i : ℕ) : ℝ :=
  1 + Real.sin (time * 2 + (i : ℝ) * 0.1) * 0.3

/-- The hover base scale from the `Sparks` frame update:
`i === hoveredIndex ? 1.5 : 1.0`. -/
noncomputable def baseScale (i : ℕ) (hoveredIndex : Option ℕ) : ℝ :=
  if (some i : Option ℕ) = hoveredIndex then 1.5 else 1.0

/-- The scale written into the instance matrix each frame:
`baseScale * pulseScale`. -/
noncomputable def sparkScale (time : ℝ) (i : ℕ) (hoveredIndex : Option ℕ) : ℝ :=
  baseScale i hoveredIndex * pulseScale time i

/-- JS `Math.atan2 y x`, embedded as the argument of the complex number
`x + y*I`; both have range `(-pi, pi]` and value `0` at the origin. -/
noncomputable def atan2 (y x : ℝ) : ℝ := Complex.arg ((x : ℂ) + (y : ℂ) * Complex.I)

/-- The longitude-normalization loops of `GlobeSphere.handlePointerUp`
(`while (lng <= -180) lng += 360; while (lng > 180) lng -= 360`): the
unique representative of `lng` modulo 360 in the interval `(-180, 180]`. -/
noncomputable def normalizeLng (lng : ℝ) : ℝ := lng - 360 * ⌈(lng - 180) / 360⌉

/-- The inverse Cartesian-to-lat/lng mapping of `GlobeSphere.handlePointerUp`. -/
noncomputable def vector3ToLatLng (p : Vector3) : ℝ × ℝ :=
  let radius := Real.sqrt (p.x * p.x + p.y * p.y + p.z * p.z)
  let lat := 90 - Real.arccos (p.y / radius) * (180 / Real.pi)
  let lng := atan2 p.z (-p.x) * (180 / Real.pi) - 180
  (lat, normalizeLng lng)

/-- C1: the gesture-to-camera rotation update returns
`(rx + dy*s*0.01, ry + dx*s*0.01, rz)`: the yaw change equals `dx*s*0.01`
and the pitch change equals `dy*s*0.01` (exactly, hence within 1e-4), and
the roll component is returned unchanged. -/
theorem updateRotationFromTouch_formula (rx ry rz dx dy s : ℝ) :
    updateRotationFromTouch (rx, ry, rz) (dx, dy) s
      = (rx + dy * s * 0.01, ry + dx * s * 0.01, rz) ∧
    |(updateRotationFromTouch (rx, ry, rz) (dx, dy) s).2.1 - ry - dx * s * 0.01|
      ≤ 1 / 10000 ∧
    |(updateRotationFromTouch (rx, ry, rz) (dx, dy) s).1 - rx - dy * s * 0.01|
      ≤ 1 / 10000 ∧
    (updateRotationFromTouch (rx, ry, rz) (dx, dy) s).2.2 = rz := by
  refine ⟨rfl, ?_, ?_, rfl⟩ <;>
  · simp only [updateRotationFromTouch]
    ring_nf
    norm_num

/-- C2 counterexample: when the current distance (100) lies outside the
bounds [2.5, 20], a zero zoom delta does change the distance: the clamp
moves it to 20. -/
theorem updateCameraDistanceFromZoom_zeroDelta_cex :
    updateCameraDistanceFromZoom 100 0 1 (5 / 2) 20 = 20 ∧ (20 : ℝ) ≠ 100 := by
  constructor
  · simp only [updateCameraDistanceFromZoom]
    rw [show (100 : ℝ) + 0 * 1 = 100 by norm_num,
      min_eq_left (by norm_num : (20 : ℝ) ≤ 100),
      max_eq_right (by norm_num : (5 / 2 : ℝ) ≤ 20)]
  · norm_num

/-- C2 (amended): with `minDistance ≤ maxDistance`, both the scroll-zoom
and the pinch update always return a value in `[minDistance, maxDistance]`;
a zero delta leaves the distance unchanged provided the current distance
already lies within the bounds. -/
theorem cameraDistance_bounds_and_zeroDelta (d delta s mn mx : ℝ)
    (hmm : mn ≤ mx) :
    (mn ≤ updateCameraDistanceFromZoom d delta s mn mx ∧
      updateCameraDistanceFromZoom d delta s mn mx ≤ mx) ∧
    (mn ≤ updateCameraDistanceFromPinch d delta s mn mx ∧
      updateCameraDistanceFromPinch d delta s mn mx ≤ mx) ∧
    (delta = 0 → mn ≤ d → d ≤ mx →
      updateCameraDistanceFromZoom d delta s mn mx = d ∧
      updateCameraDistanceFromPinch d delta s mn mx = d) := by
  refine ⟨⟨le_max_left _ _, max_le hmm (min_le_left _ _)⟩,
    ⟨le_max_left _ _, max_le hmm (min_le_left _ _)⟩, ?_⟩
  rintro rfl h1 h2
  constructor
  · simp only [updateCameraDistanceFromZoom]
    rw [show d + 0 * s = d by ring, min_eq_right h2, max_eq_right h1]
  · simp only [updateCameraDistanceFromPinch]
    rw [show d - 0 * s = d by ring, min_eq_right h2, max_eq_right h1]

theorem cameraDistance_bounds_and_zeroDelta_witness :
    ((5 / 2 : ℝ) ≤ 20) ∧
    (((5 / 2 : ℝ) ≤ updateCameraDistanceFromZoom 8 0 1 (5 / 2) 20 ∧
      updateCameraDistanceFromZoom 8 0 1 (5 / 2) 20 ≤ 20) ∧
    ((5 / 2 : ℝ) ≤ updateCameraDistanceFromPinch 8 0 1 (5 / 2) 20 ∧
      updateCameraDistanceFromPinch 8 0 1 (5 / 2) 20 ≤ 20) ∧
    ((0 : ℝ) = 0 → (5 / 2 : ℝ) ≤ 8 → (8 : ℝ) ≤ 20 →
      updateCameraDistanceFromZoom 8 0 1 (5 / 2) 20 = 8 ∧
      updateCameraDistanceFromPinch 8 0 1 (5 / 2) 20 = 8)) :=
  ⟨by norm_num, cameraDistance_bounds_and_zeroDelta 8 0 1 (5 / 2) 20 (by norm_num)⟩

/-- C3: the pinch update uses the inverted sign convention
`clamp(distance - pinchDelta*zoomSpeed, min, max)`: with the current
distance in bounds and a positive zoom speed, a positive pinch delta
strictly decreases the distance when it is strictly above the minimum, and
a negative pinch delta strictly increases it when strictly below the
maximum. -/
theorem updateCameraDistanceFromPinch_sign (d delta s mn mx : ℝ)
    (hd1 : mn ≤ d) (hd2 : d ≤ mx) (hs : 0 < s) :
    (0 < delta → mn < d → updateCameraDistanceFromPinch d delta s mn mx < d) ∧
    (delta < 0 → d < mx → d < updateCameraDistanceFromPinch d delta s mn mx) := by
  constructor
  · intro hdelta hmd
    have hnew : d - delta * s < d := by nlinarith
    calc updateCameraDistanceFromPinch d delta s mn mx
        = max mn (min mx (d - delta * s)) := rfl
      _ < d := max_lt hmd (lt_of_le_of_lt (min_le_right _ _) hnew)
  · intro hdelta hdm
    have hnew : d < d - delta * s := by nlinarith
    calc d < min mx (d - delta * s) := lt_min hdm hnew
      _ ≤ max mn (min mx (d - delta * s)) := le_max_right _ _
      _ = updateCameraDistanceFromPinch d delta s mn mx := rfl

theorem updateCameraDistanceFromPinch_sign_witness :
    ((5 / 2 : ℝ) ≤ 5 ∧ (5 : ℝ) ≤ 20 ∧ (0 : ℝ) < 1) ∧
    ((0 < (1 : ℝ) → (5 / 2 : ℝ) < 5 →
      updateCameraDistanceFromPinch 5 1 1 (5 / 2) 20 < 5) ∧
    ((1 : ℝ) < 0 → (5 : ℝ) < 20 →
      (5 : ℝ) < updateCameraDistanceFromPinch 5 1 1 (5 / 2) 20)) :=
  ⟨by norm_num,
    updateCameraDistanceFromPinch_sign 5 1 1 (5 / 2) 20 (by norm_num) (by norm_num)
      (by norm_num)⟩

/-- A concrete spark used to instantiate picker theorems. -/
def sampleSpark : Spark :=
  ⟨"spark-1", "hello world", 0, 0, "idea", "Hanoi", 0⟩

/-- C6: drag/click disambiguation in `Sparks.handlePointerUp`: movement
strictly above 5 pixels suppresses selection regardless of the hit index;
movement at most 5 pixels with a supplied hit index that has a
corresponding spark in the registry emits exactly that selection. -/
theorem handlePointerUpSelect_dragClick (startX startY upX upY : ℝ)
    (instanceId : Option ℕ) (sparks : List Spark) :
    (pointerMoveDistance startX startY upX upY > 5 →
      handlePointerUpSelect startX startY upX upY instanceId sparks = none) ∧
    (∀ i sp, pointerMoveDistance startX startY upX upY ≤ 5 →
      instanceId = some i → sparks.get? i = some sp →
      handlePointerUpSelect startX startY upX upY instanceId sparks = some sp) := by
  constructor
  · intro h
    simp only [handlePointerUpSelect]
    rw [if_pos h]
  · rintro i sp h rfl hget
    simp only [handlePointerUpSelect]
    rw [if_neg (not_lt.mpr h)]
    exact hget

theorem handlePointerUpSelect_dragClick_witness :
    (pointerMoveDistance 0 0 0 0 ≤ 5 ∧
      ([sampleSpark].get? 0 = some sampleSpark)) ∧
    handlePointerUpSelect 0 0 0 0 (some 0) [sampleSpark] = some sampleSpark := by
  have hmove : pointerMoveDistance 0 0 0 0 ≤ 5 := by
    simp only [pointerMoveDistance]
    norm_num
  exact ⟨⟨hmove, rfl⟩,
    (handlePointerUpSelect_dragClick 0 0 0 0 (some 0) [sampleSpark]).2 0 sampleSpark
      hmove rfl rfl⟩

/-- C10: when a pointer-up is classified as a click (movement at most 5
pixels) but the supplied hit index has no corresponding entry in the spark
array, the lookup yields nothing and the picker emits no selection. -/
theorem handlePointerUpSelect_outOfRange (startX startY upX upY : ℝ)
    (i : ℕ) (sparks : List Spark)
    (hmove : pointerMoveDistance startX startY upX upY ≤ 5)
    (hlen : sparks.length ≤ i) :
    handlePointerUpSelect startX startY upX upY (some i) sparks = none := by
  simp only [handlePointerUpSelect]
  rw [if_neg (not_lt.mpr hmove)]
  exact List.get?_eq_none.mpr hlen

theorem handlePointerUpSelect_outOfRange_witness :
    (pointerMoveDistance 0 0 0 0 ≤ 5 ∧ ([] : List Spark).length ≤ 3) ∧
    handlePointerUpSelect 0 0 0 0 (some 3) [] = none := by
  have hmove : pointerMoveDistance 0 0 0 0 ≤ 5 := by
    simp only [pointerMoveDistance]
    norm_num
  have hlen : ([] : List Spark).length ≤ 3 := by simp
  exact ⟨⟨hmove, hlen⟩, handlePointerUpSelect_outOfRange 0 0 0 0 3 [] hmove hlen⟩

/-- C7 counterexample: at time 0 the point with index 1 has pulse factor
`1 + sin(0*2 + 1*0.1)*0.3 = 1 + sin(0.1)*0.3`, which is not equal to 1 —
the per-index phase offset is nonzero away from index 0. -/
theorem pulseScale_zero_nonzero_index_cex : pulseScale 0 1 ≠ 1 := by
  have harg : (0 : ℝ) * 2 + ((1 : ℕ) : ℝ) * 0.1 = 0.1 := by norm_num
  have hpos : 0 < Real.sin 0.1 := by
    apply Real.sin_pos_of_pos_of_lt_pi
    · norm_num
    · linarith [Real.pi_gt_three]
  simp only [pulseScale, harg]
  intro h
  nlinarith [hpos]

/-- C7 (amended): the animated scale is periodic with period `pi = 2*pi/2`
for every index, hover state and time (exactly, hence within 1e-4); at
time 0 the pulse factor of the index-0 point (the zero index-offset case)
equals exactly 1, so its scale equals the base scale exactly. -/
theorem sparkScale_periodic (t : ℝ) (i : ℕ) (hoveredIndex : Option ℕ) :
    sparkScale (t + Real.pi) i hoveredIndex = sparkScale t i hoveredIndex ∧
    pulseScale 0 0 = 1 ∧
    sparkScale 0 0 hoveredIndex = baseScale 0 hoveredIndex := by
  have key : Real.sin ((t + Real.pi) * 2 + (i : ℝ) * 0.1)
      = Real.sin (t * 2 + (i : ℝ) * 0.1) := by
    rw [show (t + Real.pi) * 2 + (i : ℝ) * 0.1
        = t * 2 + (i : ℝ) * 0.1 + 2 * Real.pi by ring]
    exact Real.sin_add_two_pi _
  have hp0 : pulseScale 0 0 = 1 := by
    simp [pulseScale]
  refine ⟨?_, hp0, ?_⟩
  · simp only [sparkScale, pulseScale, key]
  · simp only [sparkScale, hp0, mul_one]

/-- C8: applying a gesture delta and then its exact negation returns the
camera to its original state (exactly, hence within 1e-4), provided the
distance starts strictly inside the bounds and neither the intermediate
nor the final clamp is engaged; the rotation round trip holds for all
inputs. -/
theorem gesture_roundTrip (rx ry rz dx dy rs d delta zs mn mx : ℝ)
    (hd1 : mn < d) (hd2 : d < mx)
    (hz1 : mn ≤ d + delta * zs) (hz2 : d + delta * zs ≤ mx)
    (hp1 : mn ≤ d - delta * zs) (hp2 : d - delta * zs ≤ mx) :
    updateRotationFromTouch
      (updateRotationFromTouch (rx, ry, rz) (dx, dy) rs) (-dx, -dy) rs
      = (rx, ry, rz) ∧
    updateCameraDistanceFromZoom
      (updateCameraDistanceFromZoom d delta zs mn mx) (-delta) zs mn mx = d ∧
    updateCameraDistanceFromPinch
      (updateCameraDistanceFromPinch d delta zs mn mx) (-delta) zs mn mx = d := by
  refine ⟨?_, ?_, ?_⟩
  · simp only [updateRotationFromTouch, Prod.mk.injEq]
    refine ⟨by ring, by ring, trivial⟩
  · have h1 : updateCameraDistanceFromZoom d delta zs mn mx = d + delta * zs := by
      simp only [updateCameraDistanceFromZoom]
      rw [min_eq_right hz2, max_eq_right hz1]
    rw [h1]
    simp only [updateCameraDistanceFromZoom]
    rw [show d + delta * zs + -delta * zs = d by ring,
      min_eq_right hd2.le, max_eq_right hd1.le]
  · have h1 : updateCameraDistanceFromPinch d delta zs mn mx = d - delta * zs := by
      simp only [updateCameraDistanceFromPinch]
      rw [min_eq_right hp2, max_eq_right hp1]
    rw [h1]
    simp only [updateCameraDistanceFromPinch]
    rw [show d - delta * zs - -delta * zs = d by ring,
      min_eq_right hd2.le, max_eq_right hd1.le]

theorem gesture_roundTrip_witness :
    ((5 / 2 : ℝ) < 5 ∧ (5 : ℝ) < 20 ∧
      (5 / 2 : ℝ) ≤ 5 + 1 * 1 ∧ (5 : ℝ) + 1 * 1 ≤ 20 ∧
      (5 / 2 : ℝ) ≤ 5 - 1 * 1 ∧ (5 : ℝ) - 1 * 1 ≤ 20) ∧
    (updateRotationFromTouch
      (updateRotationFromTouch (0, 0, 0) (1, 1) 1) (-1, -1) 1 = (0, 0, 0) ∧
    updateCameraDistanceFromZoom
      (updateCameraDistanceFromZoom 5 1 1 (5 / 2) 20) (-1) 1 (5 / 2) 20 = 5 ∧
    updateCameraDistanceFromPinch
      (updateCameraDistanceFromPinch 5 1 1 (5 / 2) 20) (-1) 1 (5 / 2) 20 = 5) :=
  ⟨by norm_num,
    gesture_roundTrip 0 0 0 1 1 1 5 1 1 (5 / 2) 20 (by norm_num) (by norm_num)
      (by norm_num) (by norm_num) (by norm_num) (by norm_num)⟩

/-- The squared Euclidean norm of a projected point is the squared radius. -/
lemma latLngToVector3_normSq (lat lng radius : ℝ) :
    (latLngToVector3 lat lng radius).x * (latLngToVector3 lat lng radius).x +
    (latLngToVector3 lat lng radius).y * (latLngToVector3 lat lng radius).y +
    (latLngToVector3 lat lng radius).z * (latLngToVector3 lat lng radius).z
      = radius * radius := by
  simp only [latLngToVector3]
  have h1 := Real.sin_sq_add_cos_sq ((90 - lat) * (Real.pi / 180))
  have h2 := Real.sin_sq_add_cos_sq ((lng + 180) * (Real.pi / 180))
  linear_combination
    (radius * radius * Real.sin ((90 - lat) * (Real.pi / 180)) ^ 2) * h2 +
    (radius * radius) * h1

/-- The Euclidean norm of a projected point equals the (nonnegative) radius. -/
lemma latLngToVector3_norm (lat lng radius : ℝ) (hr : 0 ≤ radius) :
    Real.sqrt ((latLngToVector3 lat lng radius).x * (latLngToVector3 lat lng radius).x +
      (latLngToVector3 lat lng radius).y * (latLngToVector3 lat lng radius).y +
      (latLngToVector3 lat lng radius).z * (latLngToVector3 lat lng radius).z)
      = radius := by
  rw [latLngToVector3_normSq, show radius * radius = radius ^ 2 by ring]
  exact Real.sqrt_sq hr

/-- C4: for valid latitude, longitude and positive radius the projection is
deterministic (identical inputs give identical outputs) and the Euclidean
norm of the returned vector equals the radius (exactly, hence within 1e-4). -/
theorem latLngToVector3_pure_on_sphere (lat lng radius : ℝ)
    (h1 : -90 ≤ lat) (h2 : lat ≤ 90) (h3 : -180 ≤ lng) (h4 : lng ≤ 180)
    (hr : 0 < radius) :
    latLngToVector3 lat lng radius = latLngToVector3 lat lng radius ∧
    |Real.sqrt ((latLngToVector3 lat lng radius).x * (latLngToVector3 lat lng radius).x +
      (latLngToVector3 lat lng radius).y * (latLngToVector3 lat lng radius).y +
      (latLngToVector3 lat lng radius).z * (latLngToVector3 lat lng radius).z)
      - radius| ≤ 1 / 10000 := by
  refine ⟨rfl, ?_⟩
  rw [latLngToVector3_norm lat lng radius hr.le, sub_self, abs_zero]
  norm_num

theorem latLngToVector3_pure_on_sphere_witness :
    ((-90 : ℝ) ≤ 45 ∧ (45 : ℝ) ≤ 90 ∧ (-180 : ℝ) ≤ 30 ∧ (30 : ℝ) ≤ 180 ∧
      (0 : ℝ) < 2) ∧
    (latLngToVector3 45 30 2 = latLngToVector3 45 30 2 ∧
    |Real.sqrt ((latLngToVector3 45 30 2).x * (latLngToVector3 45 30 2).x +
      (latLngToVector3 45 30 2).y * (latLngToVector3 45 30 2).y +
      (latLngToVector3 45 30 2).z * (latLngToVector3 45 30 2).z)
      - 2| ≤ 1 / 10000) :=
  ⟨by norm_num,
    latLngToVector3_pure_on_sphere 45 30 2 (by norm_num) (by norm_num)
      (by norm_num) (by norm_num) (by norm_num)⟩

/-- Unfolding of the latitude component of the inverse mapping. -/
lemma vector3ToLatLng_fst_def (p : Vector3) :
    (vector3ToLatLng p).1
      = 90 - Real.arccos (p.y / Real.sqrt (p.x * p.x + p.y * p.y + p.z * p.z))
          * (180 / Real.pi) := rfl

/-- Unfolding of the longitude component of the inverse mapping. -/
lemma vector3ToLatLng_snd_def (p : Vector3) :
    (vector3ToLatLng p).2
      = normalizeLng (atan2 p.z (-p.x) * (180 / Real.pi) - 180) := rfl

/-- Inputs already in `(-180, 180]` are fixed by the normalization loops. -/
lemma normalizeLng_of_mem (l : ℝ) (h1 : -180 < l) (h2 : l ≤ 180) :
    normalizeLng l = l := by
  simp only [normalizeLng]
  have hceil : ⌈(l - 180) / 360⌉ = 0 := by
    rw [Int.ceil_eq_zero_iff, Set.mem_Ioc]
    constructor
    · rw [lt_div_iff (by norm_num : (0 : ℝ) < 360)]
      linarith
    · rw [div_le_iff (by norm_num : (0 : ℝ) < 360)]
      linarith
  rw [hceil]
  norm_num

/-- Inputs in `(-540, -180]` are shifted up by one turn of 360 degrees. -/
lemma normalizeLng_add360 (l : ℝ) (h1 : -540 < l) (h2 : l ≤ -180) :
    normalizeLng l = l + 360 := by
  simp only [normalizeLng]
  have hceil : ⌈(l - 180) / 360⌉ = -1 := by
    rw [Int.ceil_eq_iff]
    constructor
    · push_cast
      rw [lt_div_iff (by norm_num : (0 : ℝ) < 360)]
      linarith
    · push_cast
      rw [div_le_iff (by norm_num : (0 : ℝ) < 360)]
      linarith
  rw [hceil]
  push_cast
  ring

/-- A positive real scale factor does not change the complex argument. -/
lemma arg_cos_sin_scaled (c : ℝ) (hc : 0 < c) (t : ℝ) :
    Complex.arg ((↑(c * Real.cos t) : ℂ) + ↑(c * Real.sin t) * Complex.I)
      = Complex.arg ((↑(Real.cos t) : ℂ) + ↑(Real.sin t) * Complex.I) := by
  rw [show ((↑(c * Real.cos t) : ℂ) + ↑(c * Real.sin t) * Complex.I)
      = (c : ℂ) * ((↑(Real.cos t) : ℂ) + ↑(Real.sin t) * Complex.I) by
    push_cast
    ring]
  exact Complex.arg_real_mul _ hc

/-- The argument of `cos t + sin t * I` for `t` in the principal range. -/
lemma arg_real_cos_sin (t : ℝ) (h1 : -Real.pi < t) (h2 : t ≤ Real.pi) :
    Complex.arg ((↑(Real.cos t) : ℂ) + ↑(Real.sin t) * Complex.I) = t := by
  rw [Complex.ofReal_cos, Complex.ofReal_sin]
  exact Complex.arg_cos_add_sin_mul_I ⟨h1, h2⟩

/-- The argument of `cos t + sin t * I` for `t` one turn above the
principal range. -/
lemma arg_real_cos_sin_shift (t : ℝ) (h1 : Real.pi < t) (h2 : t ≤ 3 * Real.pi) :
    Complex.arg ((↑(Real.cos t) : ℂ) + ↑(Real.sin t) * Complex.I)
      = t - 2 * Real.pi := by
  rw [show Real.cos t = Real.cos (t - 2 * Real.pi) from (Real.cos_sub_two_pi t).symm,
    show Real.sin t = Real.sin (t - 2 * Real.pi) from (Real.sin_sub_two_pi t).symm]
  exact arg_real_cos_sin _ (by linarith) (by linarith)

/-- The inverse mapping recovers the latitude exactly. -/
lemma vector3ToLatLng_fst_recover (lat lng radius : ℝ)
    (h1 : -90 ≤ lat) (h2 : lat ≤ 90) (hr : 0 < radius) :
    (vector3ToLatLng (latLngToVector3 lat lng radius)).1 = lat := by
  have hπ := Real.pi_pos
  rw [vector3ToLatLng_fst_def, latLngToVector3_norm lat lng radius hr.le]
  have hy : (latLngToVector3 lat lng radius).y
      = radius * Real.cos ((90 - lat) * (Real.pi / 180)) := rfl
  rw [hy, mul_div_cancel_left₀ _ (ne_of_gt hr)]
  have hφ0 : 0 ≤ (90 - lat) * (Real.pi / 180) :=
    mul_nonneg (by linarith) (by positivity)
  have hφπ : (90 - lat) * (Real.pi / 180) ≤ Real.pi := by
    have h180 : (180 : ℝ) * (Real.pi / 180) = Real.pi := by ring
    have := mul_le_mul_of_nonneg_right (show (90 - lat : ℝ) ≤ 180 by linarith)
      (show (0 : ℝ) ≤ Real.pi / 180 by positivity)
    linarith
  rw [Real.arccos_cos hφ0 hφπ]
  have hid : (90 - lat) * (Real.pi / 180) * (180 / Real.pi) = 90 - lat := by
    field_simp
  rw [hid]
  ring

/-- The inverse mapping recovers the longitude away from the poles:
exactly for `lng` in `(-180, 180]`, and as `lng + 360` for `lng = -180`
(wraparound to the identical meridian at 180). -/
lemma vector3ToLatLng_snd_recover (lat lng radius : ℝ)
    (h1 : -90 < lat) (h2 : lat < 90)
    (h3 : -180 ≤ lng) (h4 : lng ≤ 180) (hr : 0 < radius) :
    (vector3ToLatLng (latLngToVector3 lat lng radius)).2 = lng ∨
    (vector3ToLatLng (latLngToVector3 lat lng radius)).2 = lng + 360 := by
  have hπ := Real.pi_pos
  have hφ0 : 0 < (90 - lat) * (Real.pi / 180) :=
    mul_pos (by linarith) (by positivity)
  have hφπ : (90 - lat) * (Real.pi / 180) < Real.pi := by
    have h180 : (180 : ℝ) * (Real.pi / 180) = Real.pi := by ring
    have := mul_lt_mul_of_pos_right (show (90 - lat : ℝ) < 180 by linarith)
      (show (0 : ℝ) < Real.pi / 180 by positivity)
    linarith
  have hsinφ : 0 < Real.sin ((90 - lat) * (Real.pi / 180)) :=
    Real.sin_pos_of_pos_of_lt_pi hφ0 hφπ
  have hc : 0 < radius * Real.sin ((90 - lat) * (Real.pi / 180)) :=
    mul_pos hr hsinφ
  have hx : (latLngToVector3 lat lng radius).x
      = -radius * Real.sin ((90 - lat) * (Real.pi / 180))
        * Real.cos ((lng + 180) * (Real.pi / 180)) := rfl
  have hz : (latLngToVector3 lat lng radius).z
      = radius * Real.sin ((90 - lat) * (Real.pi / 180))
        * Real.sin ((lng + 180) * (Real.pi / 180)) := rfl
  rw [vector3ToLatLng_snd_def, hx, hz]
  rw [show -(-radius * Real.sin ((90 - lat) * (Real.pi / 180))
      * Real.cos ((lng + 180) * (Real.pi / 180)))
      = radius * Real.sin ((90 - lat) * (Real.pi / 180))
        * Real.cos ((lng + 180) * (Real.pi / 180)) by ring]
  simp only [atan2]
  rw [arg_cos_sin_scaled (radius * Real.sin ((90 - lat) * (Real.pi / 180))) hc
    ((lng + 180) * (Real.pi / 180))]
  have hmul : (lng + 180) * (Real.pi / 180) * (180 / Real.pi) = lng + 180 := by
    field_simp
  rcases le_or_lt lng 0 with hlng | hlng
  · have hθπ : (lng + 180) * (Real.pi / 180) ≤ Real.pi := by
      have h180 : (180 : ℝ) * (Real.pi / 180) = Real.pi := by ring
      have := mul_le_mul_of_nonneg_right (show (lng + 180 : ℝ) ≤ 180 by linarith)
        (show (0 : ℝ) ≤ Real.pi / 180 by positivity)
      linarith
    have hθ0 : 0 ≤ (lng + 180) * (Real.pi / 180) :=
      mul_nonneg (by linarith) (by positivity)
    rw [arg_real_cos_sin _ (by linarith) hθπ]
    rw [show (lng + 180) * (Real.pi / 180) * (180 / Real.pi) - 180 = lng by
      rw [hmul]; ring]
    rcases eq_or_lt_of_le h3 with heq | hgt
    · right
      rw [normalizeLng_add360 lng (by linarith) (by linarith)]
    · left
      exact normalizeLng_of_mem lng hgt (by linarith)
  · have hθgt : Real.pi < (lng + 180) * (Real.pi / 180) := by
      have hexp : (lng + 180) * (Real.pi / 180)
          = Real.pi + lng * (Real.pi / 180) := by ring
      have hpos : 0 < lng * (Real.pi / 180) := mul_pos hlng (by positivity)
      linarith
    have hθle : (lng + 180) * (Real.pi / 180) ≤ 3 * Real.pi := by
      have h360 : (360 : ℝ) * (Real.pi / 180) = 2 * Real.pi := by ring
      have := mul_le_mul_of_nonneg_right (show (lng + 180 : ℝ) ≤ 360 by linarith)
        (show (0 : ℝ) ≤ Real.pi / 180 by positivity)
      linarith
    rw [arg_real_cos_sin_shift _ hθgt hθle]
    left
    have h2π : 2 * Real.pi * (180 / Real.pi) = 360 := by
      field_simp
      ring
    rw [show ((lng + 180) * (Real.pi / 180) - 2 * Real.pi) * (180 / Real.pi) - 180
        = (lng + 180) * (Real.pi / 180) * (180 / Real.pi)
          - 2 * Real.pi * (180 / Real.pi) - 180 by ring]
    rw [hmul, h2π]
    rw [show lng + 180 - 360 - 180 = lng - 360 by ring]
    rw [normalizeLng_add360 (lng - 360) (by linarith) (by linarith)]
    ring

/-- C5 (amended): away from the poles (latitude strictly inside
(-90, 90)), the inverse mapping of `GlobeSphere.handlePointerUp` applied
to `latLngToVector3 lat lng radius` recovers the latitude within 1e-3
degrees and the longitude within 1e-3 degrees modulo 360 (wraparound at
plus or minus 180 counts as a match). -/
theorem latLng_roundTrip (lat lng radius : ℝ)
    (hlat1 : -90 < lat) (hlat2 : lat < 90)
    (hlng1 : -180 ≤ lng) (hlng2 : lng ≤ 180) (hr : 0 < radius) :
    |(vector3ToLatLng (latLngToVector3 lat lng radius)).1 - lat| ≤ 1 / 1000 ∧
    (|(vector3ToLatLng (latLngToVector3 lat lng radius)).2 - lng| ≤ 1 / 1000 ∨
     |(vector3ToLatLng (latLngToVector3 lat lng radius)).2 - (lng + 360)|
       ≤ 1 / 1000 ∨
     |(vector3ToLatLng (latLngToVector3 lat lng radius)).2 - (lng - 360)|
       ≤ 1 / 1000) := by
  constructor
  · rw [vector3ToLatLng_fst_recover lat lng radius hlat1.le hlat2.le hr,
      sub_self, abs_zero]
    norm_num
  · rcases vector3ToLatLng_snd_recover lat lng radius hlat1 hlat2 hlng1 hlng2 hr
      with h | h
    · left
      rw [h, sub_self, abs_zero]
      norm_num
    · right
      left
      rw [h, sub_self, abs_zero]
      norm_num

theorem latLng_roundTrip_witness :
    ((-90 : ℝ) < 45 ∧ (45 : ℝ) < 90 ∧ (-180 : ℝ) ≤ 30 ∧ (30 : ℝ) ≤ 180 ∧
      (0 : ℝ) < 1) ∧
    (|(vector3ToLatLng (latLngToVector3 45 30 1)).1 - 45| ≤ 1 / 1000 ∧
    (|(vector3ToLatLng (latLngToVector3 45 30 1)).2 - 30| ≤ 1 / 1000 ∨
     |(vector3ToLatLng (latLngToVector3 45 30 1)).2 - (30 + 360)| ≤ 1 / 1000 ∨
     |(vector3ToLatLng (latLngToVector3 45 30 1)).2 - (30 - 360)| ≤ 1 / 1000)) :=
  ⟨by norm_num,
    latLng_roundTrip 45 30 1 (by norm_num) (by norm_num) (by norm_num)
      (by norm_num) (by norm_num)⟩

/-- C5 counterexample: at the north pole the longitude information is lost.
Projecting (lat 90, lng 90, radius 1) gives the point (0, 1, 0), and the
inverse mapping returns longitude 180, which differs from the input 90 by
90 degrees even modulo 360. -/
theorem latLng_roundTrip_pole_cex :
    (vector3ToLatLng (latLngToVector3 90 90 1)).2 = 180 ∧
    ¬ (|(180 : ℝ) - 90| ≤ 1 / 1000 ∨ |(180 : ℝ) - (90 + 360)| ≤ 1 / 1000 ∨
       |(180 : ℝ) - (90 - 360)| ≤ 1 / 1000) := by
  constructor
  · have hp : latLngToVector3 90 90 1 = ⟨0, 1, 0⟩ := by
      simp only [latLngToVector3]
      rw [show ((90 : ℝ) - 90) * (Real.pi / 180) = 0 by norm_num,
        Real.sin_zero, Real.cos_zero]
      apply Vector3.ext <;> simp
    rw [hp, vector3ToLatLng_snd_def]
    have hz : atan2 (0 : ℝ) (-(0 : ℝ)) = 0 := by
      simp [atan2, Complex.arg_zero]
    show normalizeLng (atan2 (0 : ℝ) (-(0 : ℝ)) * (180 / Real.pi) - 180) = 180
    rw [hz, zero_mul, zero_sub,
      normalizeLng_add360 (-180) (by norm_num) (by norm_num)]
    norm_num
  · norm_num

/-- C9 counterexample: the two coordinate pairs (lat 90, lng 0) and
(lat 90, lng 50) differ by 50 degrees in longitude yet project to the very
same point (0, 1, 0): at the poles all longitudes collapse. -/
theorem latLngToVector3_collapse_cex :
    latLngToVector3 90 0 1 = latLngToVector3 90 50 1 ∧ (0 : ℝ) ≠ 50 := by
  constructor
  · simp only [latLngToVector3]
    rw [show ((90 : ℝ) - 90) * (Real.pi / 180) = 0 by norm_num,
      Real.sin_zero, Real.cos_zero]
    apply Vector3.ext <;> simp
  · norm_num

/-- C9 (amended): away from the poles (latitude strictly inside (-90, 90))
and with longitudes taken in the half-open interval (-180, 180] (so that
the two representations of the same meridian are identified), the
projection is injective: coordinate pairs that differ in latitude or
longitude project to distinct positions. -/
theorem latLngToVector3_injective (lat1 lng1 lat2 lng2 radius : ℝ)
    (h1a : -90 < lat1) (h1b : lat1 < 90) (h2a : -90 < lat2) (h2b : lat2 < 90)
    (h3a : -180 < lng1) (h3b : lng1 ≤ 180) (h4a : -180 < lng2) (h4b : lng2 ≤ 180)
    (hr : 0 < radius) (hne : lat1 ≠ lat2 ∨ lng1 ≠ lng2) :
    latLngToVector3 lat1 lng1 radius ≠ latLngToVector3 lat2 lng2 radius := by
  intro heq
  have hπ := Real.pi_pos
  have hy : radius * Real.cos ((90 - lat1) * (Real.pi / 180))
      = radius * Real.cos ((90 - lat2) * (Real.pi / 180)) :=
    congrArg Vector3.y heq
  have hcosφ : Real.cos ((90 - lat1) * (Real.pi / 180))
      = Real.cos ((90 - lat2) * (Real.pi / 180)) :=
    mul_left_cancel₀ (ne_of_gt hr) hy
  have hφπ1 : (90 - lat1) * (Real.pi / 180) < Real.pi := by
    have h180 : (180 : ℝ) * (Real.pi / 180) = Real.pi := by ring
    have := mul_lt_mul_of_pos_right (show (90 - lat1 : ℝ) < 180 by linarith)
      (show (0 : ℝ) < Real.pi / 180 by positivity)
    linarith
  have hφπ2 : (90 - lat2) * (Real.pi / 180) < Real.pi := by
    have h180 : (180 : ℝ) * (Real.pi / 180) = Real.pi := by ring
    have := mul_lt_mul_of_pos_right (show (90 - lat2 : ℝ) < 180 by linarith)
      (show (0 : ℝ) < Real.pi / 180 by positivity)
    linarith
  have hφmem1 : (90 - lat1) * (Real.pi / 180) ∈ Set.Icc 0 Real.pi :=
    ⟨mul_nonneg (by linarith) (by positivity), hφπ1.le⟩
  have hφmem2 : (90 - lat2) * (Real.pi / 180) ∈ Set.Icc 0 Real.pi :=
    ⟨mul_nonneg (by linarith) (by positivity), hφπ2.le⟩
  have hφeq : (90 - lat1) * (Real.pi / 180) = (90 - lat2) * (Real.pi / 180) :=
    Real.injOn_cos hφmem1 hφmem2 hcosφ
  have hlat : lat1 = lat2 := by
    have hne180 : (Real.pi / 180 : ℝ) ≠ 0 := by positivity
    have := mul_right_cancel₀ hne180 hφeq
    linarith
  subst hlat
  rcases hne with h | h
  · exact h rfl
  have hsinφ : 0 < Real.sin ((90 - lat1) * (Real.pi / 180)) :=
    Real.sin_pos_of_pos_of_lt_pi (mul_pos (by linarith) (by positivity)) hφπ1
  have hcne : (-radius * Real.sin ((90 - lat1) * (Real.pi / 180)) : ℝ) ≠ 0 := by
    rw [show (-radius * Real.sin ((90 - lat1) * (Real.pi / 180)) : ℝ)
        = -(radius * Real.sin ((90 - lat1) * (Real.pi / 180))) by ring]
    exact neg_ne_zero.mpr (ne_of_gt (mul_pos hr hsinφ))
  have hx : -radius * Real.sin ((90 - lat1) * (Real.pi / 180))
      * Real.cos ((lng1 + 180) * (Real.pi / 180))
      = -radius * Real.sin ((90 - lat1) * (Real.pi / 180))
        * Real.cos ((lng2 + 180) * (Real.pi / 180)) :=
    congrArg Vector3.x heq
  have hcosθ : Real.cos ((lng1 + 180) * (Real.pi / 180))
      = Real.cos ((lng2 + 180) * (Real.pi / 180)) :=
    mul_left_cancel₀ hcne hx
  have hz : radius * Real.sin ((90 - lat1) * (Real.pi / 180))
      * Real.sin ((lng1 + 180) * (Real.pi / 180))
      = radius * Real.sin ((90 - lat1) * (Real.pi / 180))
        * Real.sin ((lng2 + 180) * (Real.pi / 180)) :=
    congrArg Vector3.z heq
  have hsinθ : Real.sin ((lng1 + 180) * (Real.pi / 180))
      = Real.sin ((lng2 + 180) * (Real.pi / 180)) :=
    mul_left_cancel₀ (ne_of_gt (mul_pos hr hsinφ)) hz
  have hangle : (((lng1 + 180) * (Real.pi / 180) : ℝ) : Real.Angle)
      = (((lng2 + 180) * (Real.pi / 180) : ℝ) : Real.Angle) :=
    Real.Angle.cos_sin_inj hcosθ hsinθ
  obtain ⟨k, hk⟩ := Real.Angle.angle_eq_iff_two_pi_dvd_sub.mp hangle
  have hk2 : (lng1 - lng2) * (Real.pi / 180) = 2 * Real.pi * (k : ℝ) := by
    rw [show (lng1 - lng2) * (Real.pi / 180)
        = (lng1 + 180) * (Real.pi / 180) - (lng2 + 180) * (Real.pi / 180) by ring]
    exact hk
  have hub : 2 * Real.pi * (k : ℝ) < 2 * Real.pi := by
    rw [← hk2]
    have h1 : (lng1 - lng2) * (Real.pi / 180) < 360 * (Real.pi / 180) :=
      mul_lt_mul_of_pos_right (by linarith) (by positivity)
    have h2 : (360 : ℝ) * (Real.pi / 180) = 2 * Real.pi := by ring
    linarith
  have hlb : -(2 * Real.pi) < 2 * Real.pi * (k : ℝ) := by
    rw [← hk2]
    have h1 : (-360 : ℝ) * (Real.pi / 180) < (lng1 - lng2) * (Real.pi / 180) :=
      mul_lt_mul_of_pos_right (by linarith) (by positivity)
    have h2 : (-360 : ℝ) * (Real.pi / 180) = -(2 * Real.pi) := by ring
    linarith
  have hkR1 : (k : ℝ) < 1 := by nlinarith [hub, hπ]
  have hkR2 : (-1 : ℝ) < (k : ℝ) := by nlinarith [hlb, hπ]
  have hk0 : k = 0 := by
    have ha : k < 1 := by exact_mod_cast hkR1
    have hb : -1 < k := by exact_mod_cast hkR2
    omega
  have hlngeq : lng1 - lng2 = 0 := by
    have h0 : (lng1 - lng2) * (Real.pi / 180) = 0 := by
      rw [hk2, hk0]
      push_cast
      ring
    rcases mul_eq_zero.mp h0 with hcase | hcase
    · exact hcase
    · exact absurd hcase (by positivity)
  exact h (by linarith)

theorem latLngToVector3_injective_witness :
    ((-90 : ℝ) < 0 ∧ (0 : ℝ) < 90 ∧ (-90 : ℝ) < 10 ∧ (10 : ℝ) < 90 ∧
      (-180 : ℝ) < 0 ∧ (0 : ℝ) ≤ 180 ∧ (-180 : ℝ) < 20 ∧ (20 : ℝ) ≤ 180 ∧
      (0 : ℝ) < 1 ∧ ((0 : ℝ) ≠ 10 ∨ (0 : ℝ) ≠ 20)) ∧
    latLngToVector3 0 0 1 ≠ latLngToVector3 10 20 1 :=
  ⟨by norm_num,
    latLngToVector3_injective 0 0 10 20 1 (by norm_num) (by norm_num)
      (by norm_num) (by norm_num) (by norm_num) (by norm_num) (by norm_num)
      (by norm_num) (by norm_num) (Or.inl (by norm_num))⟩
